import Mathlib

/-!
Verification development for the seeknode RSS monitor worker
(`src/monitor.ts`).  The TypeScript source is shallowly embedded:

* JS strings are modelled as `List Char` (`Str`); `toLowerCase` is
  `Char.toLower` mapped over the list, `includes` is list-infix.
* The D1 database is modelled as explicit record lists (`posts`,
  `users`, `keywords_sub`, `push_logs`) threaded through each function.
  Row creation order is list order; `created_at` ordering is list order.
* Fallible DB inserts are modelled by boolean oracles saying whether a
  given insert call throws; `try/catch` placement follows the source
  exactly (the catch in `savePostsToDatabase` and `createPushLogs`
  wraps the whole loop, so a throw aborts the remaining iterations).
* SQL `NULL` (a JS `NaN` bound into a query) never compares equal to
  anything, as in SQLite; `jsParseInt` returns `none` for NaN.
-/

/-! ## Definitions: the shallow embedding of src/monitor.ts -/

abbrev Str := List Char

def lower (s : Str) : Str := s.map Char.toLower

def isWs (c : Char) : Bool := c = ' ' || c = '\n' || c = '\t' || c = '\r'

def trim (s : Str) : Str :=
  ((s.dropWhile isWs).reverse.dropWhile isWs).reverse

def decodeDigits (l : Str) : Nat :=
  l.foldl (fun a c => 10 * a + (c.toNat - 48)) 0

def natToStrCore : Nat → Nat → Str
  | _, 0 => []
  | 0, _ + 1 => []
  | fuel + 1, n + 1 =>
      natToStrCore fuel ((n + 1) / 10) ++ [Nat.digitChar ((n + 1) % 10)]

def natToStr (n : Nat) : Str :=
  if n = 0 then ['0'] else natToStrCore n n

def jsParseInt (s : Str) : Option Nat :=
  let t := s.dropWhile isWs
  let ds := t.takeWhile Char.isDigit
  if ds.isEmpty then none else some (decodeDigits ds)

def optEqNat : Option Nat → Option Nat → Bool
  | some a, some b => a == b
  | _, _ => false

def findClose (post : Str) : Str → Option Str
  | [] => none
  | c :: rest =>
    if post.isPrefixOf (c :: rest) then some []
    else if c = '\n' then none
    else match findClose post rest with
      | some mid => some (c :: mid)
      | none => none

def findCloseAny (post : Str) : Str → Option (Str × Str)
  | [] => none
  | c :: rest =>
    if post.isPrefixOf (c :: rest) then some ([], (c :: rest).drop post.length)
    else match findCloseAny post rest with
      | some (mid, r) => some (c :: mid, r)
      | none => none

def matchTag (pre post : Str) : Str → Option Str
  | [] => none
  | c :: rest =>
    if pre.isPrefixOf (c :: rest) then
      match findClose post ((c :: rest).drop pre.length) with
      | some mid => some mid
      | none => matchTag pre post rest
    else matchTag pre post rest

def itemOpenLit : Str := "<item>".toList

def itemCloseLit : Str := "</item>".toList

def extractItemsGo : Nat → Str → List Str
  | 0, _ => []
  | _ + 1, [] => []
  | fuel + 1, c :: rest =>
    if itemOpenLit.isPrefixOf (c :: rest) then
      match findCloseAny itemCloseLit ((c :: rest).drop itemOpenLit.length) with
      | some (mid, r) =>
          (itemOpenLit ++ mid ++ itemCloseLit) :: extractItemsGo fuel r
      | none => extractItemsGo fuel rest
    else extractItemsGo fuel rest

def extractItems (s : Str) : List Str := extractItemsGo s.length s

def cdataOpenLit : Str := "<![CDATA[".toList

def cdataCloseLit : Str := "]]>".toList

def ltLit : Str := "<".toList

def gtLit : Str := ">".toList

def ltSlashLit : Str := "</".toList

def fieldOf (tag : Str) (item : Str) : Option Str :=
  match matchTag (ltLit ++ tag ++ gtLit ++ cdataOpenLit)
      (cdataCloseLit ++ ltSlashLit ++ tag ++ gtLit) item with
  | some v => some v
  | none => matchTag (ltLit ++ tag ++ gtLit) (ltSlashLit ++ tag ++ gtLit) item

def postDashLit : Str := "post-".toList

def extractNumericId : Str → Option Str
  | [] => none
  | c :: rest =>
    if postDashLit.isPrefixOf (c :: rest) then
      let t := (c :: rest).drop postDashLit.length
      let ds := t.takeWhile Char.isDigit
      match ds, t.drop ds.length with
      | _ :: _, '-' :: _ => some ds
      | _, _ => extractNumericId rest
    else extractNumericId rest

structure RSSPost where
  id : Str
  title : Str
  description : Str
  pubDate : Str
  category : Str
  creator : Str
deriving DecidableEq, Repr

def titleTag : Str := "title".toList

def linkTag : Str := "link".toList

def descriptionTag : Str := "description".toList

def pubDateTag : Str := "pubDate".toList

def categoryTag : Str := "category".toList

def creatorTag : Str := "dc:creator".toList

def noTitleLit : Str := "无标题".toList

def noCategoryLit : Str := "未分类".toList

def noCreatorLit : Str := "未知作者".toList

def itemDashLit : Str := "item-".toList

def fallbackId (index : Nat) : Str := itemDashLit ++ natToStr index

def mkPost (index : Nat) (item : Str) : RSSPost :=
  let titleMatch := fieldOf titleTag item
  let linkMatch := matchTag (ltLit ++ linkTag ++ gtLit) (ltSlashLit ++ linkTag ++ gtLit) item
  let descriptionMatch := fieldOf descriptionTag item
  let pubDateMatch := matchTag (ltLit ++ pubDateTag ++ gtLit) (ltSlashLit ++ pubDateTag ++ gtLit) item
  let categoryMatch := fieldOf categoryTag item
  let creatorMatch := fieldOf creatorTag item
  let link := linkMatch.getD []
  let idMatch := extractNumericId link
  { id := idMatch.getD (fallbackId index)
    title := (titleMatch.map trim).getD noTitleLit
    description := (descriptionMatch.map trim).getD []
    pubDate := (pubDateMatch.map trim).getD []
    category := (categoryMatch.map trim).getD noCategoryLit
    creator := (creatorMatch.map trim).getD noCreatorLit }

def parseRSSXML (xmlText : Str) : List RSSPost :=
  (extractItems xmlText).enum.map (fun p => mkPost p.1 p.2)

structure PostRow where
  post_id : Option Nat
  title : Str
  content : Str
  pub_date : Str
  category : Str
  creator : Str
  is_push : Nat
deriving DecidableEq, Repr

structure User where
  id : Nat
  chat_id : Int
  max_sub : Nat
  is_active : Nat
deriving DecidableEq, Repr

structure KeywordSub where
  id : Nat
  user_id : Nat
  keywords_count : Int
  keyword1 : Str
  keyword2 : Option Str
  keyword3 : Option Str
  is_active : Nat
deriving DecidableEq, Repr

structure PushLog where
  id : Nat
  user_id : Nat
  chat_id : Int
  post_id : Option Nat
  sub_id : Nat
  push_status : Nat
  error_message : Option Str
deriving DecidableEq, Repr

structure MonState where
  posts : List PostRow
  users : List User
  subs : List KeywordSub
  logs : List PushLog
deriving DecidableEq, Repr

def postToRow (p : RSSPost) : PostRow :=
  { post_id := jsParseInt p.id, title := p.title, content := p.description,
    pub_date := p.pubDate, category := p.category, creator := p.creator,
    is_push := 0 }

def existsRow (db : List PostRow) (key : Option Nat) : Bool :=
  db.any (fun r => optEqNat r.post_id key)

def savePostsGo (insertFails : RSSPost → Bool) :
    List PostRow → Nat → List RSSPost → List PostRow × Nat
  | db, acc, [] => (db, acc)
  | db, acc, p :: rest =>
    if existsRow db (jsParseInt p.id) then savePostsGo insertFails db acc rest
    else if insertFails p then (db, acc)
    else savePostsGo insertFails (db ++ [postToRow p]) (acc + 1) rest

def savePostsToDatabase (insertFails : RSSPost → Bool)
    (db : List PostRow) (posts : List RSSPost) : List PostRow × Nat :=
  savePostsGo insertFails db 0 posts

def noFailSave : RSSPost → Bool := fun _ => false

def getUnpushedPosts (db : List PostRow) (limit : Nat) : List PostRow :=
  ((db.filter (fun r => r.is_push == 0)).reverse).take limit

def markPostAsPushed (db : List PostRow) (postId : Option Nat) : List PostRow :=
  db.map (fun r => if optEqNat r.post_id postId then { r with is_push := 1 } else r)

def getActiveUsers (st : MonState) : List User :=
  st.users.filter (fun u => u.is_active == 1)

def getUserKeywords (st : MonState) (userId : Nat) : List KeywordSub :=
  st.subs.filter (fun k => k.user_id == userId && k.is_active == 1)

def includes (hay needle : Str) : Bool := decide (needle <:+: hay)

def searchTextOf (post : PostRow) : Str :=
  lower (post.title ++ [' '] ++ post.content ++ [' '] ++ post.category
    ++ [' '] ++ post.creator)

def matchKeywords (post : PostRow) (ks : KeywordSub) : Bool :=
  let searchText := searchTextOf post
  let keyword1 := lower ks.keyword1
  let keyword2 := ks.keyword2.map lower
  let keyword3 := ks.keyword3.map lower
  if keyword1.isEmpty || !(includes searchText keyword1) then false
  else if ks.keywords_count == 1 then true
  else if ks.keywords_count == 2 then
    match keyword2 with
    | some w => if w.isEmpty then false else includes searchText w
    | none => false
  else if ks.keywords_count == 3 then
    match keyword2, keyword3 with
    | some w2, some w3 =>
      if w2.isEmpty || w3.isEmpty then false
      else includes searchText w2 && includes searchText w3
    | _, _ => false
  else false

def existsLog (st : MonState) (userId : Nat) (postId : Option Nat) (subId : Nat) : Bool :=
  st.logs.any (fun l => l.user_id == userId && optEqNat l.post_id postId && l.sub_id == subId)

def nextLogId (st : MonState) : Nat :=
  (st.logs.foldr (fun l a => max l.id a) 0) + 1

def insertLog (st : MonState) (u : User) (post : PostRow) (k : KeywordSub) : MonState :=
  { st with logs := st.logs ++
      [{ id := nextLogId st, user_id := u.id, chat_id := u.chat_id,
         post_id := post.post_id, sub_id := k.id, push_status := 0,
         error_message := none }] }

def scanSubs (insFails : Nat → Option Nat → Nat → Bool) (post : PostRow) (u : User) :
    MonState → Nat → Nat → List KeywordSub → Bool × MonState × Nat × Nat
  | st, tot, cre, [] => (false, st, tot, cre)
  | st, tot, cre, k :: rest =>
    if matchKeywords post k then
      if existsLog st u.id post.post_id k.id then (false, st, tot + 1, cre)
      else if insFails u.id post.post_id k.id then (true, st, tot + 1, cre)
      else (false, insertLog st u post k, tot + 1, cre + 1)
    else scanSubs insFails post u st tot cre rest

def scanUsers (insFails : Nat → Option Nat → Nat → Bool) (post : PostRow) :
    MonState → Nat → Nat → List User → Bool × MonState × Nat × Nat
  | st, tot, cre, [] => (false, st, tot, cre)
  | st, tot, cre, u :: rest =>
    match scanSubs insFails post u st tot cre (getUserKeywords st u.id) with
    | (true, st', t, c) => (true, st', t, c)
    | (false, st', t, c) => scanUsers insFails post st' t c rest

def scanPosts (insFails : Nat → Option Nat → Nat → Bool) (users : List User) :
    MonState → Nat → Nat → List PostRow → Bool × MonState × Nat × Nat
  | st, tot, cre, [] => (false, st, tot, cre)
  | st, tot, cre, post :: rest =>
    match scanUsers insFails post st tot cre users with
    | (true, st', t, c) => (true, st', t, c)
    | (false, st', t, c) =>
        scanPosts insFails users
          { st' with posts := markPostAsPushed st'.posts post.post_id } t c rest

def createPushLogs (insFails : Nat → Option Nat → Nat → Bool)
    (st : MonState) (posts : List PostRow) : MonState × Nat × Nat :=
  let users := getActiveUsers st
  match scanPosts insFails users st 0 0 posts with
  | (_, st', tot, cre) => (st', tot, cre)

def noFailIns : Nat → Option Nat → Nat → Bool := fun _ _ _ => false

structure RunStats where
  rssPostsCount : Nat
  savedNewPosts : Nat
  unpushedPosts : Nat
  keywordMatches : Nat
  createdPushLogs : Nat
deriving DecidableEq, Repr

def rssMonitorTask (saveFails : RSSPost → Bool) (insFails : Nat → Option Nat → Nat → Bool)
    (st : MonState) (rssPosts : List RSSPost) : MonState × RunStats :=
  if rssPosts.isEmpty then
    (st, { rssPostsCount := 0, savedNewPosts := 0, unpushedPosts := 0,
           keywordMatches := 0, createdPushLogs := 0 })
  else
    let saved := savePostsToDatabase saveFails st.posts rssPosts
    let st1 := { st with posts := saved.1 }
    let unpushed := getUnpushedPosts st1.posts 50
    if unpushed.isEmpty then
      (st1, { rssPostsCount := rssPosts.length, savedNewPosts := saved.2,
              unpushedPosts := 0, keywordMatches := 0, createdPushLogs := 0 })
    else
      match createPushLogs insFails st1 unpushed with
      | (st2, tot, cre) =>
        (st2, { rssPostsCount := rssPosts.length, savedNewPosts := saved.2,
                unpushedPosts := unpushed.length, keywordMatches := tot,
                createdPushLogs := cre })

inductive ChannelResult where
  | ok
  | err (msg : Str)
deriving DecidableEq, Repr

structure SendResult where
  success : Bool
  error : Option Str
  userBlocked : Bool
deriving DecidableEq, Repr

def blockedBotLit : Str := "Forbidden: bot was blocked by the user".toList

def deactivatedLit : Str := "Forbidden: user is deactivated".toList

def kickedGroupLit : Str := "Forbidden: bot was kicked from the group chat".toList

def kickedSuperLit : Str := "Forbidden: bot was kicked from the supergroup chat".toList

def chatNotFoundLit : Str := "Bad Request: chat not found".toList

def blockedErrors : List Str :=
  [blockedBotLit, deactivatedLit, kickedGroupLit, kickedSuperLit, chatNotFoundLit]

def isBlockedMsg (msg : Str) : Bool :=
  blockedErrors.any (fun b => includes (lower msg) (lower b))

def sendTelegramMessage (channel : ChannelResult) : SendResult :=
  match channel with
  | .ok => { success := true, error := none, userBlocked := false }
  | .err m => { success := false, error := some m, userBlocked := isBlockedMsg m }

def deactivateUser (users : List User) (chatId : Int) : List User :=
  users.map (fun u => if u.chat_id == chatId then { u with is_active := 0 } else u)

structure JoinedRow where
  log : PushLog
  chat_id : Int
deriving DecidableEq, Repr

def joinRow (st : MonState) (l : PushLog) : Option JoinedRow :=
  if st.posts.any (fun p => optEqNat p.post_id l.post_id)
      && st.subs.any (fun k => k.id == l.sub_id) then
    match st.users.find? (fun u => u.id == l.user_id) with
    | some u => some { log := l, chat_id := u.chat_id }
    | none => none
  else none

def pendingJoined (st : MonState) : List JoinedRow :=
  (((st.logs.filter (fun l => l.push_status == 0)).filterMap (joinRow st)).take 100)

inductive ProcOutcome where
  | exn (s : Str)
  | channel (r : ChannelResult)
deriving DecidableEq, Repr

def updateLogStatus (logs : List PushLog) (logId : Nat) (err : Option Str) : List PushLog :=
  logs.map (fun l => if l.id == logId then
    { l with push_status := 1, error_message := err } else l)

def processOne (proc : PushLog → ProcOutcome) (st : MonState) (r : JoinedRow) :
    MonState × Bool :=
  match proc r.log with
  | .exn s =>
      ({ st with logs := updateLogStatus st.logs r.log.id (some s) }, false)
  | .channel c =>
      let sent := sendTelegramMessage c
      if sent.success then
        ({ st with logs := updateLogStatus st.logs r.log.id none }, true)
      else
        let st1 := { st with logs := updateLogStatus st.logs r.log.id sent.error }
        if sent.userBlocked then
          ({ st1 with users := deactivateUser st1.users r.chat_id }, false)
        else (st1, false)

def pushTaskGo (proc : PushLog → ProcOutcome) :
    MonState → Nat → Nat → List JoinedRow → MonState × Nat × Nat
  | st, suc, fl, [] => (st, suc, fl)
  | st, suc, fl, r :: rest =>
    match processOne proc st r with
    | (st', true) => pushTaskGo proc st' (suc + 1) fl rest
    | (st', false) => pushTaskGo proc st' suc (fl + 1) rest

def pushTask (proc : PushLog → ProcOutcome) (st : MonState) : MonState × Nat × Nat :=
  pushTaskGo proc st 0 0 (pendingJoined st)

def outcomeError : ProcOutcome → Option Str
  | .exn s => some s
  | .channel .ok => none
  | .channel (.err m) => some m

def isSent (l : PushLog) : Prop := l.push_status = 1 ∧ l.error_message = none

def isFailed (l : PushLog) : Prop := l.push_status = 1 ∧ l.error_message ≠ none

def kwPresent (post : PostRow) (w : Str) : Prop :=
  includes (searchTextOf post) (lower w) = true

def specUpsertNew : List PostRow → List RSSPost → List PostRow × Nat
  | db, [] => (db, 0)
  | db, p :: rest =>
    if existsRow db (jsParseInt p.id) then specUpsertNew db rest
    else
      match specUpsertNew (db ++ [postToRow p]) rest with
      | (db2, c) => (db2, c + 1)

def cp61 : RSSPost :=
  { id := ['1'], title := ['x'], description := [], pubDate := [],
    category := [], creator := [] }

def cp62 : RSSPost :=
  { id := ['2'], title := ['y'], description := [], pubDate := [],
    category := [], creator := [] }

def cf6 : RSSPost → Bool := fun p => p.id == ['1']

def pr6 : PostRow :=
  { post_id := some 9, title := ['a'], content := [], pub_date := [],
    category := [], creator := [], is_push := 0 }

def u61 : User := { id := 1, chat_id := 1, max_sub := 3, is_active := 1 }

def u62 : User := { id := 2, chat_id := 2, max_sub := 3, is_active := 1 }

def k61 : KeywordSub :=
  { id := 1, user_id := 1, keywords_count := 1, keyword1 := ['a'],
    keyword2 := none, keyword3 := none, is_active := 1 }

def k62 : KeywordSub :=
  { id := 2, user_id := 2, keywords_count := 1, keyword1 := ['a'],
    keyword2 := none, keyword3 := none, is_active := 1 }

def st6 : MonState :=
  { posts := [pr6], users := [u61, u62], subs := [k61, k62], logs := [] }

def gf6 : Nat → Option Nat → Nat → Bool := fun uid _ _ => uid == 1

def c4pay : List RSSPost := (List.range 51).map (fun i =>
  { id := natToStr (i + 1), title := ['a'], description := [], pubDate := [],
    category := [], creator := [] })

def c4st0 : MonState :=
  { posts := [], users := [{ id := 1, chat_id := 7, max_sub := 3, is_active := 1 }],
    subs := [{ id := 1, user_id := 1, keywords_count := 1, keyword1 := ['a'],
               keyword2 := none, keyword3 := none, is_active := 1 }],
    logs := [] }

def c4wpay : List RSSPost :=
  [{ id := ['7'], title := ['a'], description := [], pubDate := [],
     category := [], creator := [] }]

def pr1 : PostRow :=
  { post_id := some 9, title := ['a'], content := [], pub_date := [],
    category := [], creator := [], is_push := 1 }

def u1c : User := { id := 1, chat_id := 7, max_sub := 1, is_active := 1 }

def k1c : KeywordSub :=
  { id := 1, user_id := 1, keywords_count := 1, keyword1 := ['a'],
    keyword2 := none, keyword3 := none, is_active := 1 }

def plog1 : PushLog :=
  { id := 1, user_id := 1, chat_id := 7, post_id := some 9, sub_id := 1,
    push_status := 0, error_message := none }

def cst1 : MonState := { posts := [pr1], users := [u1c], subs := [k1c], logs := [plog1] }

def r1c : JoinedRow := { log := plog1, chat_id := 7 }

def boomLit : Str := "boom".toList

def proc1 : PushLog → ProcOutcome := fun _ => ProcOutcome.exn boomLit

def l1c : PushLog := { plog1 with push_status := 1, error_message := some boomLit }

def proc10 : PushLog → ProcOutcome := fun _ => ProcOutcome.channel ChannelResult.ok

def unknownErrLit : Str := "network timeout".toList

def proc7 : PushLog → ProcOutcome :=
  fun _ => ProcOutcome.channel (ChannelResult.err unknownErrLit)

def notFeedLit : Str := "this is not a feed".toList

def linkOf (item : Str) : Str :=
  (matchTag (ltLit ++ linkTag ++ gtLit) (ltSlashLit ++ linkTag ++ gtLit) item).getD []

/-! ## Theorems -/

theorem lower_eq_nil_iff (s : Str) : lower s = [] ↔ s = [] := by
  cases s <;> simp [lower]

theorem lower_isEmpty (s : Str) : (lower s).isEmpty = s.isEmpty := by
  cases s <;> simp [lower]

theorem matchKeywords_characterization (post : PostRow) (ks : KeywordSub) :
    matchKeywords post ks = true ↔
      ks.keyword1 ≠ [] ∧ kwPresent post ks.keyword1 ∧
        (ks.keywords_count = 1 ∨
         (ks.keywords_count = 2 ∧
           ∃ w, ks.keyword2 = some w ∧ w ≠ [] ∧ kwPresent post w) ∨
         (ks.keywords_count = 3 ∧
           (∃ w, ks.keyword2 = some w ∧ w ≠ [] ∧ kwPresent post w) ∧
           (∃ w, ks.keyword3 = some w ∧ w ≠ [] ∧ kwPresent post w))) := by
  obtain ⟨i, u, cnt, k1, k2, k3, a⟩ := ks
  simp only [matchKeywords, kwPresent]
  by_cases hk1 : k1 = []
  · subst hk1; simp [lower]
  · have h1e : (lower k1).isEmpty = false := by
      simp [lower_isEmpty, List.isEmpty_iff, hk1]
    by_cases h2 : includes (searchTextOf post) (lower k1) = true
    · simp only [h1e, h2, Bool.false_or, Bool.not_true, if_false]
      by_cases c1 : cnt = 1
      · subst c1; simp [hk1, h2]
      · by_cases c2 : cnt = 2
        · subst c2
          cases k2 with
          | none => simp [hk1, h2, c1]
          | some w =>
            by_cases hw : w = []
            · subst hw; simp [hk1, h2, lower]
            · have : (lower w).isEmpty = false := by
                simp [lower_isEmpty, List.isEmpty_iff, hw]
              simp [hk1, h2, hw, this]
        · by_cases c3 : cnt = 3
          · subst c3
            cases k2 with
            | none => simp [hk1, h2, c1, c2]
            | some w2 =>
              cases k3 with
              | none => simp [hk1, h2, c1, c2]
              | some w3 =>
                by_cases hw2 : w2 = []
                · subst hw2; simp [hk1, h2, lower]
                · by_cases hw3 : w3 = []
                  · subst hw3; simp [hk1, h2, hw2, lower, lower_isEmpty]
                  · have e2 : (lower w2).isEmpty = false := by
                      simp [lower_isEmpty, List.isEmpty_iff, hw2]
                    have e3 : (lower w3).isEmpty = false := by
                      simp [lower_isEmpty, List.isEmpty_iff, hw3]
                    simp [hk1, h2, hw2, hw3, e2, e3]
          · have b1 : (cnt == 1) = false := by simp [c1]
            have b2 : (cnt == 2) = false := by simp [c2]
            have b3 : (cnt == 3) = false := by simp [c3]
            simp [b1, b2, b3, c1, c2, c3]
    · have : includes (searchTextOf post) (lower k1) = false := by
        simp only [Bool.not_eq_true] at h2; exact h2
      simp [this, h2]

theorem scanSubs_find_char (post : PostRow) (u : User) (subs : List KeywordSub) :
    ∀ (st : MonState) (tot cre : Nat),
      scanSubs noFailIns post u st tot cre subs =
        match subs.find? (fun k => matchKeywords post k) with
        | none => (false, st, tot, cre)
        | some k =>
          if existsLog st u.id post.post_id k.id then (false, st, tot + 1, cre)
          else (false, insertLog st u post k, tot + 1, cre + 1) := by
  induction subs with
  | nil => intro st tot cre; rfl
  | cons k rest ih =>
    intro st tot cre
    by_cases m : matchKeywords post k
    · simp [scanSubs, m, noFailIns, List.find?_cons_of_pos _ m]
    · have hm : matchKeywords post k = false := by simp [m]
      simp [scanSubs, hm, List.find?_cons_of_neg, ih st tot cre]

theorem fanout_one_obligation_per_subscriber_post
    (st : MonState) (u : User) (post : PostRow) (tot cre : Nat) :
    (scanSubs noFailIns post u st tot cre (getUserKeywords st u.id) =
      match (getUserKeywords st u.id).find? (fun k => matchKeywords post k) with
      | none => (false, st, tot, cre)
      | some k =>
        if existsLog st u.id post.post_id k.id then (false, st, tot + 1, cre)
        else (false, insertLog st u post k, tot + 1, cre + 1)) ∧
    ((scanSubs noFailIns post u st tot cre (getUserKeywords st u.id)).2.1).logs.length
      ≤ st.logs.length + 1 := by
  refine ⟨scanSubs_find_char post u _ st tot cre, ?_⟩
  rw [scanSubs_find_char post u _ st tot cre]
  cases h : (getUserKeywords st u.id).find? (fun k => matchKeywords post k) with
  | none => simp
  | some k =>
    by_cases he : existsLog st u.id post.post_id k.id
    · simp [he]
    · simp [he, insertLog]

theorem existsRow_append (db ext : List PostRow) (k : Option Nat) :
    existsRow (db ++ ext) k = (existsRow db k || existsRow ext k) := by
  simp [existsRow, List.any_append]

theorem savePostsGo_append (f : RSSPost → Bool) (posts : List RSSPost) :
    ∀ (db : List PostRow) (acc : Nat), ∃ ext,
      savePostsGo f db acc posts = (db ++ ext, acc + ext.length) ∧
      ext.length ≤ posts.length ∧
      ∀ r ∈ ext, r.is_push = 0 ∧ ∃ p, p ∈ posts ∧ r = postToRow p := by
  induction posts with
  | nil => intro db acc; exact ⟨[], by simp [savePostsGo]⟩
  | cons p rest ih =>
    intro db acc
    by_cases he : existsRow db (jsParseInt p.id)
    · obtain ⟨ext, h1, h2, h3⟩ := ih db acc
      refine ⟨ext, ?_, by simp only [List.length_cons]; omega, ?_⟩
      · simp [savePostsGo, he, h1]
      · intro r hr
        obtain ⟨hp, q, hq, hrq⟩ := h3 r hr
        exact ⟨hp, q, List.mem_cons_of_mem _ hq, hrq⟩
    · by_cases hf : f p
      · refine ⟨[], ?_, Nat.zero_le _, by simp⟩
        simp [savePostsGo, he, hf]
      · obtain ⟨ext, h1, h2, h3⟩ := ih (db ++ [postToRow p]) (acc + 1)
        refine ⟨postToRow p :: ext, ?_, ?_, ?_⟩
        · have hcat : db ++ [postToRow p] ++ ext = db ++ postToRow p :: ext := by simp
          simp [savePostsGo, he, hf, h1, hcat]
          try omega
        · simp only [List.length_cons]
          omega
        · intro r hr
          rcases List.mem_cons.1 hr with h | h
          · exact ⟨by simp [h, postToRow], p, by simp, h⟩
          · obtain ⟨hp, q, hq, hrq⟩ := h3 r h
            exact ⟨hp, q, List.mem_cons_of_mem _ hq, hrq⟩

theorem savePostsGo_exists_mono (f : RSSPost → Bool) (posts : List RSSPost)
    (db : List PostRow) (acc : Nat) (k : Option Nat)
    (h : existsRow db k = true) :
    existsRow (savePostsGo f db acc posts).1 k = true := by
  obtain ⟨ext, h1, -, -⟩ := savePostsGo_append f posts db acc
  simp [h1, existsRow_append, h]

theorem savePostsGo_keys_present (posts : List RSSPost) :
    ∀ (db : List PostRow) (acc : Nat) (p : RSSPost), p ∈ posts →
      (jsParseInt p.id).isSome →
      existsRow (savePostsGo noFailSave db acc posts).1 (jsParseInt p.id) = true := by
  induction posts with
  | nil => intro _ _ _ h; cases h
  | cons q rest ih =>
    intro db acc p hp hsome
    rcases List.mem_cons.1 hp with rfl | hmem
    · by_cases he : existsRow db (jsParseInt p.id)
      · simp only [savePostsGo, he, if_true]
        exact savePostsGo_exists_mono _ _ _ _ _ he
      · simp only [savePostsGo, he, if_false, noFailSave]
        apply savePostsGo_exists_mono
        obtain ⟨k, hk⟩ := Option.isSome_iff_exists.1 hsome
        simp [existsRow_append, existsRow, postToRow, hk, optEqNat]
    · by_cases he : existsRow db (jsParseInt q.id)
      · simp only [savePostsGo, he, if_true]
        exact ih db acc p hmem hsome
      · simp only [savePostsGo, he, if_false, noFailSave]
        exact ih _ _ p hmem hsome

theorem savePostsGo_all_present (f : RSSPost → Bool) (posts : List RSSPost) :
    ∀ (db : List PostRow) (acc : Nat),
      (∀ p ∈ posts, existsRow db (jsParseInt p.id) = true) →
      savePostsGo f db acc posts = (db, acc) := by
  induction posts with
  | nil => intro db acc _; rfl
  | cons p rest ih =>
    intro db acc h
    have hp := h p (by simp)
    simp only [savePostsGo, hp, if_true]
    exact ih db acc (fun q hq => h q (List.mem_cons_of_mem _ hq))

theorem savePostsGo_spec (posts : List RSSPost) :
    ∀ (db : List PostRow) (acc : Nat),
      savePostsGo noFailSave db acc posts =
        ((specUpsertNew db posts).1, acc + (specUpsertNew db posts).2) := by
  induction posts with
  | nil => intro db acc; simp [savePostsGo, specUpsertNew]
  | cons p rest ih =>
    intro db acc
    by_cases he : existsRow db (jsParseInt p.id)
    · simp [savePostsGo, specUpsertNew, he, ih]
    · simp only [savePostsGo, specUpsertNew, he, if_false, noFailSave, ih,
        Bool.false_eq_true]
      cases h : specUpsertNew (db ++ [postToRow p]) rest with
      | mk db2 c =>
        simp [h]
        try omega

theorem postStore_upsert_spec (f : RSSPost → Bool) (db : List PostRow)
    (posts : List RSSPost) :
    (savePostsToDatabase f db posts).1.take db.length = db ∧
    (savePostsToDatabase f db posts).2 =
      (savePostsToDatabase f db posts).1.length - db.length ∧
    savePostsToDatabase noFailSave db posts = specUpsertNew db posts := by
  obtain ⟨ext, h1, -, -⟩ := savePostsGo_append f posts db 0
  refine ⟨?_, ?_, ?_⟩
  · simp [savePostsToDatabase, h1, List.take_left]
  · simp [savePostsToDatabase, h1]
  · have := savePostsGo_spec posts db 0
    simp only [savePostsToDatabase, this, Nat.zero_add]

theorem batch_abort_counterexample :
    (savePostsToDatabase cf6 [] [cp61, cp62]).1 = [] ∧
    existsRow (savePostsToDatabase noFailSave [] [cp61, cp62]).1 (jsParseInt cp62.id) = true ∧
    (createPushLogs gf6 st6 [pr6]).1.logs.length = 0 ∧
    (createPushLogs gf6 st6 [pr6]).1.posts.map (fun r => r.is_push) = [0] ∧
    (createPushLogs noFailIns st6 [pr6]).1.logs.length = 2 := by decide

theorem batch_abort_amended
    (f : RSSPost → Bool) (db : List PostRow) (acc : Nat) (p : RSSPost)
    (rest : List RSSPost) (g : Nat → Option Nat → Nat → Bool) (st : MonState)
    (post : PostRow) (posts2 : List PostRow) (u : User) (us : List User)
    (k : KeywordSub) (ks : List KeywordSub)
    (h1 : existsRow db (jsParseInt p.id) = false) (h2 : f p = true)
    (h3 : getActiveUsers st = u :: us) (h4 : getUserKeywords st u.id = k :: ks)
    (h5 : matchKeywords post k = true)
    (h6 : existsLog st u.id post.post_id k.id = false)
    (h7 : g u.id post.post_id k.id = true) :
    savePostsGo f db acc (p :: rest) = (db, acc) ∧
    createPushLogs g st (post :: posts2) = (st, 1, 0) := by
  constructor
  · simp [savePostsGo, h1, h2]
  · simp [createPushLogs, h3, scanPosts, scanUsers, scanSubs, h4, h5, h6, h7]

theorem batch_abort_amended_witness :
    savePostsGo cf6 [] 0 [cp61, cp62] = ([], 0) ∧
    createPushLogs gf6 st6 [pr6] = (st6, 1, 0) :=
  batch_abort_amended cf6 [] 0 cp61 [cp62] gf6 st6 pr6 [] u61 [u62] k61 []
    (by decide) (by decide) (by decide) (by decide) (by decide) (by decide)
    (by decide)

theorem scanSubs_noFail (post : PostRow) (u : User) (ks : List KeywordSub)
    (st : MonState) (tot cre : Nat) :
    (scanSubs noFailIns post u st tot cre ks).1 = false ∧
    (scanSubs noFailIns post u st tot cre ks).2.1.posts = st.posts ∧
    (scanSubs noFailIns post u st tot cre ks).2.1.users = st.users ∧
    (scanSubs noFailIns post u st tot cre ks).2.1.subs = st.subs := by
  rw [scanSubs_find_char]
  cases ks.find? (fun k => matchKeywords post k) with
  | none => exact ⟨rfl, rfl, rfl, rfl⟩
  | some k =>
    by_cases he : existsLog st u.id post.post_id k.id <;>
      simp [he, insertLog]

theorem scanUsers_noFail (post : PostRow) (users : List User) :
    ∀ (st : MonState) (tot cre : Nat),
      (scanUsers noFailIns post st tot cre users).1 = false ∧
      (scanUsers noFailIns post st tot cre users).2.1.posts = st.posts ∧
      (scanUsers noFailIns post st tot cre users).2.1.users = st.users ∧
      (scanUsers noFailIns post st tot cre users).2.1.subs = st.subs := by
  induction users with
  | nil => intro st tot cre; exact ⟨rfl, rfl, rfl, rfl⟩
  | cons u rest ih =>
    intro st tot cre
    obtain ⟨hb, hp, hu, hs⟩ := scanSubs_noFail post u (getUserKeywords st u.id) st tot cre
    rcases hsub : scanSubs noFailIns post u st tot cre (getUserKeywords st u.id)
      with ⟨b, st', t, c⟩
    rw [hsub] at hb hp hu hs
    simp only at hb hp hu hs
    subst hb
    have := ih st' t c
    simp only [scanUsers, hsub]
    exact ⟨this.1, this.2.1.trans hp, this.2.2.1.trans hu, this.2.2.2.trans hs⟩

theorem scanPosts_noFail (users : List User) (batch : List PostRow) :
    ∀ (st : MonState) (tot cre : Nat),
      (scanPosts noFailIns users st tot cre batch).1 = false ∧
      (scanPosts noFailIns users st tot cre batch).2.1.posts =
        batch.foldl (fun db p => markPostAsPushed db p.post_id) st.posts := by
  induction batch with
  | nil => intro st tot cre; exact ⟨rfl, rfl⟩
  | cons post rest ih =>
    intro st tot cre
    obtain ⟨hb, hp, -, -⟩ := scanUsers_noFail post users st tot cre
    rcases hsu : scanUsers noFailIns post st tot cre users with ⟨b, st', t, c⟩
    rw [hsu] at hb hp
    simp only at hb hp
    subst hb
    have := ih { st' with posts := markPostAsPushed st'.posts post.post_id } t c
    simp only [scanPosts, hsu, List.foldl_cons]
    exact ⟨this.1, by rw [this.2]; simp [hp]⟩

theorem createPushLogs_posts (st : MonState) (batch : List PostRow) :
    (createPushLogs noFailIns st batch).1.posts =
      batch.foldl (fun db p => markPostAsPushed db p.post_id) st.posts := by
  have := scanPosts_noFail (getActiveUsers st) batch st 0 0
  rcases hsp : scanPosts noFailIns (getActiveUsers st) st 0 0 batch with ⟨b, st', t, c⟩
  rw [hsp] at this
  simp only [createPushLogs, hsp]
  exact this.2

theorem existsRow_markPostAsPushed (db : List PostRow) (pid k : Option Nat) :
    existsRow (markPostAsPushed db pid) k = existsRow db k := by
  simp only [markPostAsPushed, existsRow, List.any_map]
  congr 1
  funext r
  by_cases h : optEqNat r.post_id pid <;> simp [h]

theorem existsRow_foldl_mark (batch : List PostRow) :
    ∀ (db : List PostRow) (k : Option Nat),
      existsRow (batch.foldl (fun d p => markPostAsPushed d p.post_id) db) k =
        existsRow db k := by
  induction batch with
  | nil => intro db k; rfl
  | cons p rest ih =>
    intro db k
    rw [List.foldl_cons, ih, existsRow_markPostAsPushed]

theorem foldl_mark_pushes (batch : List PostRow) :
    ∀ (db : List PostRow),
      (∀ r ∈ db, r.is_push = 1 ∨ ∃ p, p ∈ batch ∧ optEqNat r.post_id p.post_id = true) →
      ∀ r ∈ batch.foldl (fun d p => markPostAsPushed d p.post_id) db, r.is_push = 1 := by
  induction batch with
  | nil =>
    intro db h r hr
    rcases h r hr with h1 | ⟨p, hp, -⟩
    · exact h1
    · cases hp
  | cons q rest ih =>
    intro db h
    rw [List.foldl_cons]
    apply ih
    intro r hr
    obtain ⟨r0, hr0, hr0e⟩ := List.mem_map.1 hr
    rcases h r0 hr0 with h1 | ⟨p, hp, hpe⟩
    · by_cases hq : optEqNat r0.post_id q.post_id <;> simp [hq] at hr0e <;>
        subst hr0e <;> simp [h1]
    · rcases List.mem_cons.1 hp with rfl | hmem
      · left
        simp [hpe] at hr0e
        subst hr0e
        rfl
      · by_cases hq : optEqNat r0.post_id q.post_id
        · left; simp [hq] at hr0e; subst hr0e; rfl
        · right
          refine ⟨p, hmem, ?_⟩
          simp [hq] at hr0e
          subst hr0e
          exact hpe

theorem run_once_state (st0 : MonState) (pay : List RSSPost)
    (H1 : ∀ p ∈ pay, (jsParseInt p.id).isSome = true)
    (H2 : ∀ r ∈ st0.posts, r.is_push = 1)
    (H3 : pay.length ≤ 50) :
    (∀ r ∈ (rssMonitorTask noFailSave noFailIns st0 pay).1.posts, r.is_push = 1) ∧
    (∀ p ∈ pay, existsRow (rssMonitorTask noFailSave noFailIns st0 pay).1.posts
        (jsParseInt p.id) = true) := by
  cases pay with
  | nil =>
    constructor
    · intro r hr
      exact H2 r hr
    · intro p hp
      cases hp
  | cons p0 rest0 =>
    obtain ⟨ext, hsg, hlen, hrows⟩ := savePostsGo_append noFailSave (p0 :: rest0) st0.posts 0
    have hkeys : ∀ p ∈ p0 :: rest0, existsRow (st0.posts ++ ext) (jsParseInt p.id) = true := by
      intro p hp
      have := savePostsGo_keys_present (p0 :: rest0) st0.posts 0 p hp (H1 p hp)
      rw [hsg] at this
      exact this
    have hfilter : (st0.posts ++ ext).filter (fun r => r.is_push == 0) = ext := by
      rw [List.filter_append]
      have h0 : st0.posts.filter (fun r => r.is_push == 0) = [] :=
        List.filter_eq_nil_iff.2 (fun r hr => by simp [H2 r hr])
      have h1 : ext.filter (fun r => r.is_push == 0) = ext :=
        List.filter_eq_self.2 (fun r hr => by simp [(hrows r hr).1])
      rw [h0, h1, List.nil_append]
    have hunp : getUnpushedPosts (st0.posts ++ ext) 50 = ext.reverse := by
      rw [getUnpushedPosts, hfilter]
      apply List.take_of_length_le
      simp only [List.length_reverse]
      exact le_trans hlen (by simpa using H3)
    have hne : (p0 :: rest0).isEmpty = false := rfl
    by_cases hext : ext = []
    · subst hext
      have hunp' : getUnpushedPosts st0.posts 50 = [] := by simpa using hunp
      have hrun : (rssMonitorTask noFailSave noFailIns st0 (p0 :: rest0)).1 =
          { st0 with posts := st0.posts ++ [] } := by
        simp [rssMonitorTask, hne, savePostsToDatabase, hsg, hunp']
      rw [hrun]
      constructor
      · intro r hr
        exact H2 r (by simpa using hr)
      · intro p hp
        simpa using hkeys p hp
    · have hne2 : (ext.reverse).isEmpty = false := by
        simp [List.isEmpty_iff, hext]
      rcases hcpl : createPushLogs noFailIns { st0 with posts := st0.posts ++ ext }
          ext.reverse with ⟨st2, tot, cre⟩
      have hrun : (rssMonitorTask noFailSave noFailIns st0 (p0 :: rest0)).1 = st2 := by
        simp [rssMonitorTask, hne, savePostsToDatabase, hsg, hunp, hne2, hcpl]
      have hposts : st2.posts =
          ext.reverse.foldl (fun db p => markPostAsPushed db p.post_id)
            (st0.posts ++ ext) := by
        have := createPushLogs_posts { st0 with posts := st0.posts ++ ext } ext.reverse
        rw [hcpl] at this
        exact this
      rw [hrun, hposts]
      constructor
      · apply foldl_mark_pushes
        intro r hr
        rcases List.mem_append.1 hr with h | h
        · exact Or.inl (H2 r h)
        · right
          refine ⟨r, List.mem_reverse.2 h, ?_⟩
          obtain ⟨-, p, hp, hrp⟩ := hrows r h
          obtain ⟨k, hk⟩ := Option.isSome_iff_exists.1 (H1 p hp)
          rw [hrp]
          simp [postToRow, hk, optEqNat]
      · intro p hp
        rw [existsRow_foldl_mark]
        exact hkeys p hp

theorem ingestion_idempotent_amended (st0 : MonState) (pay : List RSSPost)
    (H1 : ∀ p ∈ pay, (jsParseInt p.id).isSome = true)
    (H2 : ∀ r ∈ st0.posts, r.is_push = 1)
    (H3 : pay.length ≤ 50) :
    (rssMonitorTask noFailSave noFailIns
        (rssMonitorTask noFailSave noFailIns st0 pay).1 pay).1 =
      (rssMonitorTask noFailSave noFailIns st0 pay).1 := by
  obtain ⟨hpush, hkeys⟩ := run_once_state st0 pay H1 H2 H3
  cases pay with
  | nil => simp [rssMonitorTask]
  | cons p0 rest0 =>
    generalize hgen : (rssMonitorTask noFailSave noFailIns st0 (p0 :: rest0)).1 = s1
      at hpush hkeys ⊢
    have hne : (p0 :: rest0).isEmpty = false := rfl
    have hsave2 : savePostsGo noFailSave s1.posts 0 (p0 :: rest0) = (s1.posts, 0) :=
      savePostsGo_all_present _ _ _ _ hkeys
    have hunp : getUnpushedPosts s1.posts 50 = [] := by
      rw [getUnpushedPosts, List.filter_eq_nil_iff.2 (fun r hr => by simp [hpush r hr])]
      rfl
    simp [rssMonitorTask, hne, savePostsToDatabase, hsave2, hunp]

theorem ingestion_twice_counterexample :
    (rssMonitorTask noFailSave noFailIns c4st0 c4pay).1.logs.length = 50 ∧
    (rssMonitorTask noFailSave noFailIns
        (rssMonitorTask noFailSave noFailIns c4st0 c4pay).1 c4pay).1.logs.length = 51 := by
  set_option maxRecDepth 10000 in decide

theorem ingestion_idempotent_amended_witness :
    (rssMonitorTask noFailSave noFailIns
        (rssMonitorTask noFailSave noFailIns c4st0 c4wpay).1 c4wpay).1 =
      (rssMonitorTask noFailSave noFailIns c4st0 c4wpay).1 :=
  ingestion_idempotent_amended c4st0 c4wpay (by decide) (by decide) (by decide)

theorem updateLogStatus_target (logs : List PushLog) (i : Nat) (e : Option Str) :
    ∀ l' ∈ updateLogStatus logs i e, l'.id = i →
      l'.push_status = 1 ∧ l'.error_message = e := by
  intro l' hl' hid
  obtain ⟨l, hl, hle⟩ := List.mem_map.1 hl'
  by_cases h : l.id == i
  · rw [if_pos h] at hle
    subst hle
    exact ⟨rfl, rfl⟩
  · rw [if_neg h] at hle
    subst hle
    exact absurd hid (by simpa using h)

theorem updateLogStatus_preserve (logs : List PushLog) (i : Nat) (e : Option Str)
    (target : Nat) (E : Option Str) (hne : i ≠ target)
    (h : ∀ l ∈ logs, l.id = target → l.push_status = 1 ∧ l.error_message = E) :
    ∀ l' ∈ updateLogStatus logs i e, l'.id = target →
      l'.push_status = 1 ∧ l'.error_message = E := by
  intro l' hl' hid
  obtain ⟨l, hl, hle⟩ := List.mem_map.1 hl'
  by_cases hb : l.id == i
  · rw [if_pos hb] at hle
    subst hle
    have h1 : l.id = i := by simpa using hb
    have h2 : l.id = target := hid
    exact absurd (h1.symm.trans h2) hne
  · rw [if_neg hb] at hle
    subst hle
    exact h l hl hid

theorem processOne_logs (proc : PushLog → ProcOutcome) (st : MonState) (r : JoinedRow) :
    (processOne proc st r).1.logs =
      updateLogStatus st.logs r.log.id (outcomeError (proc r.log)) := by
  cases hp : proc r.log with
  | exn s => simp [processOne, hp, outcomeError]
  | channel c =>
    cases c with
    | ok => simp [processOne, hp, sendTelegramMessage, outcomeError]
    | err m =>
      by_cases hb : isBlockedMsg m <;>
        simp [processOne, hp, sendTelegramMessage, outcomeError, hb]

theorem pushTaskGo_preserve (proc : PushLog → ProcOutcome) (target : Nat)
    (E : Option Str) (pend : List JoinedRow) :
    ∀ (st : MonState) (suc fl : Nat),
      (∀ r ∈ pend, r.log.id ≠ target) →
      (∀ l ∈ st.logs, l.id = target → l.push_status = 1 ∧ l.error_message = E) →
      ∀ l' ∈ (pushTaskGo proc st suc fl pend).1.logs, l'.id = target →
        l'.push_status = 1 ∧ l'.error_message = E := by
  induction pend with
  | nil => intro st suc fl _ h l' hl' hid; exact h l' hl' hid
  | cons r0 rest ih =>
    intro st suc fl hne h l' hl' hid
    rcases hpo : processOne proc st r0 with ⟨st', b⟩
    have hlogs' : st'.logs =
        updateLogStatus st.logs r0.log.id (outcomeError (proc r0.log)) := by
      rw [← processOne_logs proc st r0, hpo]
    have step : ∀ l₂ ∈ (pushTaskGo proc st suc fl (r0 :: rest)).1.logs, l₂.id = target →
        l₂.push_status = 1 ∧ l₂.error_message = E := by
      have hbase : ∀ l ∈ st'.logs, l.id = target →
          l.push_status = 1 ∧ l.error_message = E := by
        rw [hlogs']
        exact updateLogStatus_preserve _ _ _ _ _ (hne r0 (by simp)) h
      cases b <;>
        simp only [pushTaskGo, hpo] <;>
        exact ih st' _ _ (fun r hr => hne r (List.mem_cons_of_mem _ hr)) hbase
    exact step l' hl' hid

theorem pushTaskGo_spec (proc : PushLog → ProcOutcome) (pend : List JoinedRow) :
    ∀ (st : MonState) (suc fl : Nat),
      ((pend.map (fun r => r.log.id)).Nodup) →
      ∀ r ∈ pend, ∀ l' ∈ (pushTaskGo proc st suc fl pend).1.logs, l'.id = r.log.id →
        l'.push_status = 1 ∧ l'.error_message = outcomeError (proc r.log) := by
  induction pend with
  | nil => intro _ _ _ _ r hr; cases hr
  | cons r0 rest ih =>
    intro st suc fl hnd r hr l' hl' hid
    rcases hpo : processOne proc st r0 with ⟨st', b⟩
    have hlogs' : st'.logs =
        updateLogStatus st.logs r0.log.id (outcomeError (proc r0.log)) := by
      rw [← processOne_logs proc st r0, hpo]
    simp only [List.map_cons, List.nodup_cons] at hnd
    have hstep : (pushTaskGo proc st suc fl (r0 :: rest)).1 =
        (pushTaskGo proc st' (if b then suc + 1 else suc)
          (if b then fl else fl + 1) rest).1 := by
      cases b <;> simp [pushTaskGo, hpo]
    rw [hstep] at hl'
    rcases List.mem_cons.1 hr with rfl | hmem
    · refine pushTaskGo_preserve proc r.log.id (outcomeError (proc r.log)) rest st' _ _
        ?_ ?_ l' hl' hid
      · intro r' hr' heq
        exact hnd.1 (heq ▸ List.mem_map_of_mem _ hr')
      · rw [hlogs']
        exact updateLogStatus_target _ _ _
    · exact ih st' _ _ hnd.2 r hmem l' hl' hid

theorem joinRow_log (st : MonState) (l : PushLog) (j : JoinedRow)
    (h : joinRow st l = some j) : j.log = l := by
  simp only [joinRow] at h
  by_cases hc : st.posts.any (fun p => optEqNat p.post_id l.post_id)
      && st.subs.any (fun k => k.id == l.sub_id)
  · rw [if_pos hc] at h
    cases hu : st.users.find? (fun u => u.id == l.user_id) with
    | none => rw [hu] at h; cases h
    | some u => rw [hu] at h; cases h; rfl
  · rw [if_neg hc] at h; cases h

theorem filterMap_joinRow_sublist (st : MonState) (ls : List PushLog) :
    ((ls.filterMap (joinRow st)).map (fun r => r.log)).Sublist ls := by
  induction ls with
  | nil => exact List.Sublist.refl _
  | cons l t ih =>
    cases hj : joinRow st l with
    | none => simp only [List.filterMap_cons, hj]; exact ih.cons l
    | some j =>
      simp only [List.filterMap_cons, hj, List.map_cons, joinRow_log st l j hj]
      exact ih.cons₂ l

theorem pendingJoined_ids_sublist (st : MonState) :
    ((pendingJoined st).map (fun r => r.log.id)).Sublist (st.logs.map (fun l => l.id)) := by
  have h1 : ((pendingJoined st).map (fun r => r.log.id)) =
      (((pendingJoined st).map (fun r => r.log)).map (fun l => l.id)) := by
    simp [List.map_map]
  rw [h1]
  apply List.Sublist.map
  have h2 : ((pendingJoined st).map (fun r => r.log)).Sublist
      ((((st.logs.filter (fun l => l.push_status == 0)).filterMap (joinRow st))).map
        (fun r => r.log)) := by
    simp only [pendingJoined, List.map_take]
    exact List.take_sublist _ _
  exact (h2.trans (filterMap_joinRow_sublist st _)).trans (List.filter_sublist _)

theorem pendingJoined_pending (st : MonState) :
    ∀ r ∈ pendingJoined st, r.log.push_status = 0 := by
  intro r hr
  have hr2 := List.mem_of_mem_take hr
  obtain ⟨l, hl, hj⟩ := List.mem_filterMap.1 hr2
  have := List.mem_filter.1 hl
  rw [← joinRow_log st l r hj] at this
  simpa using this.2

theorem dispatch_terminality (proc : PushLog → ProcOutcome) (st : MonState)
    (h : (st.logs.map (fun l => l.id)).Nodup)
    (r : JoinedRow) (hr : r ∈ pendingJoined st)
    (l' : PushLog) (hl : l' ∈ (pushTask proc st).1.logs) (hid : l'.id = r.log.id) :
    (isSent l' ∨ isFailed l') ∧ ¬(isSent l' ∧ isFailed l') ∧ l'.push_status ≠ 0 ∧
    (∀ s, proc r.log = ProcOutcome.exn s →
      isFailed l' ∧ l'.error_message = some s) := by
  have hnd : ((pendingJoined st).map (fun r => r.log.id)).Nodup :=
    List.Nodup.sublist (pendingJoined_ids_sublist st) h
  obtain ⟨h1, h2⟩ := pushTaskGo_spec proc (pendingJoined st) st 0 0 hnd r hr l' hl hid
  refine ⟨?_, ?_, by omega, ?_⟩
  · cases hp : proc r.log with
    | exn s =>
      right
      refine ⟨h1, ?_⟩
      rw [h2, hp]
      simp [outcomeError]
    | channel c =>
      cases c with
      | ok =>
        left
        refine ⟨h1, ?_⟩
        rw [h2, hp]
        rfl
      | err m =>
        right
        refine ⟨h1, ?_⟩
        rw [h2, hp]
        simp [outcomeError]
  · rintro ⟨⟨-, hs⟩, ⟨-, hf⟩⟩
    exact hf hs
  · intro s hs
    refine ⟨⟨h1, ?_⟩, ?_⟩ <;> rw [h2, hs] <;> simp [outcomeError]

theorem dispatch_terminality_witness :
    (isSent l1c ∨ isFailed l1c) ∧ ¬(isSent l1c ∧ isFailed l1c) ∧
    l1c.push_status ≠ 0 ∧
    (∀ s, proc1 r1c.log = ProcOutcome.exn s →
      isFailed l1c ∧ l1c.error_message = some s) :=
  dispatch_terminality proc1 cst1 (by decide) r1c (by decide) l1c (by decide)
    (by decide)

theorem ledger_single_terminal_status (proc : PushLog → ProcOutcome) (st : MonState)
    (h : (st.logs.map (fun l => l.id)).Nodup) :
    (∀ r ∈ pendingJoined st, r.log.push_status = 0) ∧
    (∀ r ∈ pendingJoined st, ∀ l' ∈ (pushTask proc st).1.logs, l'.id = r.log.id →
      l'.push_status = 1 ∧
      (l'.error_message = none ↔ proc r.log = ProcOutcome.channel ChannelResult.ok)) := by
  refine ⟨pendingJoined_pending st, ?_⟩
  intro r hr l' hl hid
  have hnd : ((pendingJoined st).map (fun r => r.log.id)).Nodup :=
    List.Nodup.sublist (pendingJoined_ids_sublist st) h
  obtain ⟨h1, h2⟩ := pushTaskGo_spec proc (pendingJoined st) st 0 0 hnd r hr l' hl hid
  refine ⟨h1, ?_⟩
  rw [h2]
  cases hp : proc r.log with
  | exn s => simp [outcomeError]
  | channel c =>
    cases c with
    | ok => simp [outcomeError]
    | err m => simp [outcomeError]

theorem ledger_single_terminal_status_witness :
    (∀ r ∈ pendingJoined cst1, r.log.push_status = 0) ∧
    (∀ r ∈ pendingJoined cst1, ∀ l' ∈ (pushTask proc10 cst1).1.logs,
      l'.id = r.log.id → l'.push_status = 1 ∧
      (l'.error_message = none ↔ proc10 r.log = ProcOutcome.channel ChannelResult.ok)) :=
  ledger_single_terminal_status proc10 cst1 (by decide)

theorem deactivation_on_permanent_rejection (proc : PushLog → ProcOutcome)
    (st : MonState) (r : JoinedRow) (m : Str)
    (hp : proc r.log = ProcOutcome.channel (ChannelResult.err m)) :
    ((processOne proc st r).1.users =
      if isBlockedMsg m then deactivateUser st.users r.chat_id else st.users) ∧
    (isBlockedMsg m = false → (processOne proc st r).1.users = st.users) ∧
    (∀ u ∈ deactivateUser st.users r.chat_id, u.chat_id = r.chat_id → u.is_active = 0) ∧
    (∀ u ∈ st.users, u.chat_id ≠ r.chat_id → u ∈ deactivateUser st.users r.chat_id) := by
  refine ⟨?_, ?_, ?_, ?_⟩
  · by_cases hb : isBlockedMsg m <;>
      simp [processOne, hp, sendTelegramMessage, hb]
  · intro hb
    simp [processOne, hp, sendTelegramMessage, hb]
  · intro u hu hc
    obtain ⟨u0, hu0, he⟩ := List.mem_map.1 hu
    by_cases hb : u0.chat_id == r.chat_id
    · rw [if_pos hb] at he
      subst he
      rfl
    · rw [if_neg hb] at he
      subst he
      exact absurd hc (by simpa using hb)
  · intro u hu hc
    refine List.mem_map.2 ⟨u, hu, ?_⟩
    rw [if_neg (by simpa using hc)]

theorem deactivation_on_permanent_rejection_witness :
    ((processOne proc7 cst1 r1c).1.users =
      if isBlockedMsg unknownErrLit then deactivateUser cst1.users r1c.chat_id
      else cst1.users) ∧
    (isBlockedMsg unknownErrLit = false →
      (processOne proc7 cst1 r1c).1.users = cst1.users) ∧
    (∀ u ∈ deactivateUser cst1.users r1c.chat_id, u.chat_id = r1c.chat_id →
      u.is_active = 0) ∧
    (∀ u ∈ cst1.users, u.chat_id ≠ r1c.chat_id →
      u ∈ deactivateUser cst1.users r1c.chat_id) :=
  deactivation_on_permanent_rejection proc7 cst1 r1c unknownErrLit (by decide)

theorem parseRSSXML_total :
    (∀ s : Str, (parseRSSXML s).length = (extractItems s).length) ∧
    parseRSSXML [] = [] ∧
    parseRSSXML notFeedLit = [] := by
  refine ⟨?_, rfl, by decide⟩
  intro s
  simp [parseRSSXML]

theorem digitChar_toNat (r : Nat) (h : r < 10) :
    (Nat.digitChar r).toNat - 48 = r := by
  interval_cases r <;> decide

theorem decodeDigits_natToStrCore :
    ∀ (fuel n : Nat), n ≤ fuel → decodeDigits (natToStrCore fuel n) = n := by
  intro fuel
  induction fuel with
  | zero =>
    intro n hn
    interval_cases n
    rfl
  | succ f ih =>
    intro n hn
    cases n with
    | zero => rfl
    | succ m =>
      have h10 : (m + 1) / 10 ≤ f := by
        have := Nat.div_lt_self (Nat.succ_pos m) (by norm_num : 1 < 10)
        omega
      have happ : decodeDigits
          (natToStrCore f ((m + 1) / 10) ++ [Nat.digitChar ((m + 1) % 10)]) =
          10 * decodeDigits (natToStrCore f ((m + 1) / 10)) +
            ((Nat.digitChar ((m + 1) % 10)).toNat - 48) := by
        simp [decodeDigits, List.foldl_append]
      rw [natToStrCore, happ, ih _ h10,
        digitChar_toNat _ (Nat.mod_lt _ (by norm_num))]
      omega

theorem decodeDigits_natToStr (n : Nat) : decodeDigits (natToStr n) = n := by
  by_cases h : n = 0
  · subst h; rfl
  · rw [natToStr, if_neg h]
    exact decodeDigits_natToStrCore n n le_rfl

theorem natToStr_injective (a b : Nat) (h : natToStr a = natToStr b) : a = b := by
  have ha := decodeDigits_natToStr a
  rw [h, decodeDigits_natToStr] at ha
  omega

theorem parser_field_defaults (index : Nat) (item : Str) :
    (fieldOf titleTag item = none → (mkPost index item).title = noTitleLit) ∧
    (∀ t, fieldOf titleTag item = some t → (mkPost index item).title = trim t) ∧
    (fieldOf descriptionTag item = none → (mkPost index item).description = []) ∧
    (∀ t, fieldOf descriptionTag item = some t →
      (mkPost index item).description = trim t) ∧
    (fieldOf categoryTag item = none → (mkPost index item).category = noCategoryLit) ∧
    (fieldOf creatorTag item = none → (mkPost index item).creator = noCreatorLit) ∧
    (∀ d, extractNumericId (linkOf item) = some d → (mkPost index item).id = d) ∧
    (extractNumericId (linkOf item) = none → (mkPost index item).id = fallbackId index) ∧
    (∀ j : Nat, index ≠ j → fallbackId index ≠ fallbackId j) := by
  refine ⟨?_, ?_, ?_, ?_, ?_, ?_, ?_, ?_, ?_⟩
  · intro h; simp [mkPost, h]
  · intro t h; simp [mkPost, h]
  · intro h; simp [mkPost, h]
  · intro t h; simp [mkPost, h]
  · intro h; simp [mkPost, h]
  · intro h; simp [mkPost, h]
  · intro d h; simp [mkPost, linkOf] at h ⊢; rw [h]; rfl
  · intro h; simp [mkPost, linkOf] at h ⊢; rw [h]; rfl
  · intro j hne he
    apply hne
    apply natToStr_injective
    have := congrArg (fun l => List.drop itemDashLit.length l) he
    simpa [fallbackId, List.drop_left] using this

theorem parser_field_defaults_witness :
    (fieldOf titleTag notFeedLit = none → (mkPost 0 notFeedLit).title = noTitleLit) ∧
    (∀ t, fieldOf titleTag notFeedLit = some t → (mkPost 0 notFeedLit).title = trim t) ∧
    (fieldOf descriptionTag notFeedLit = none →
      (mkPost 0 notFeedLit).description = []) ∧
    (∀ t, fieldOf descriptionTag notFeedLit = some t →
      (mkPost 0 notFeedLit).description = trim t) ∧
    (fieldOf categoryTag notFeedLit = none →
      (mkPost 0 notFeedLit).category = noCategoryLit) ∧
    (fieldOf creatorTag notFeedLit = none →
      (mkPost 0 notFeedLit).creator = noCreatorLit) ∧
    (∀ d, extractNumericId (linkOf notFeedLit) = some d →
      (mkPost 0 notFeedLit).id = d) ∧
    (extractNumericId (linkOf notFeedLit) = none →
      (mkPost 0 notFeedLit).id = fallbackId 0) ∧
    (∀ j : Nat, 0 ≠ j → fallbackId 0 ≠ fallbackId j) :=
  parser_field_defaults 0 notFeedLit
